import Mathlib

/-!
Verification development for the Lighthouse audit core described by the
repository. The only source file, `src/types/audit.d.ts`, declares the
contracts (Audit.Context with its `computedCache`, Audit.Meta,
Audit.Product as a discriminated union on `numericValue`); the behavioural
components (computed-artifact cache, audit execution unit, scoring
normalizer, result aggregator) are specified by the natural-language spec
and modelled here from it.  Numbers are embedded as rationals (ℚ) where the
code carries them as data, and as reals (ℝ) for the scoring curve.
-/

/-- Deep-structural artifact values: numbers, strings and nested composite
values (sequences encoded as cons cells, so composites nest arbitrarily).
Structural equality on this type is the deep value equality the Equality
Key component keys cache entries by. -/
inductive Value where
  | num (n : Int)
  | str (s : String)
  | listNil
  | listCons (head tail : Value)
deriving DecidableEq

/-- An artifact instance: a structural value together with an instance
identity (`instId`), so that two distinct instances (different `instId`)
may carry structurally equal values. -/
structure ArtifactInstance where
  instId : Nat
  value : Value
deriving DecidableEq

/-- Modelled from the spec: the Equality Key (§4.1) of an artifact instance
is its deep structural value, independent of instance identity. -/
def eqKey (a : ArtifactInstance) : Value :=
  a.value

/-- Outcome of a computed-artifact computation: resolved with a value, or
failed with an error. -/
inductive Outcome where
  | resolved (v : Value)
  | failed (e : String)
deriving DecidableEq

/-- Modelled from the spec: lifecycle of an Equality-Keyed Cache Entry (§3):
pending (with the callers waiting on it) or settled (resolved/failed). -/
inductive EntryState where
  | pending (waiters : List Nat)
  | settled (o : Outcome)
deriving DecidableEq

/-- A cache key: computation name paired with the equality key of the
input artifacts (the nested map of `Audit.Context.computedCache`,
src/types/audit.d.ts lines 31-41, flattened to pairs). -/
abbrev Key := String × Value

/-- Association-list lookup for cache entries, first match wins. -/
def lookupEntry : List (Key × EntryState) → Key → Option EntryState
  | [], _ => none
  | (k, s) :: rest, k0 => if k = k0 then some s else lookupEntry rest k0

/-- Replace the state stored under a key (first occurrence only). -/
def setEntry : List (Key × EntryState) → Key → EntryState → List (Key × EntryState)
  | [], _, _ => []
  | (k, s) :: rest, k0, s0 =>
      if k = k0 then (k, s0) :: rest else (k, s) :: setEntry rest k0 s0

/-- Modelled from the spec: the Computed Artifact Cache state (§4.2).
`entries` is the nested mapping, `invocations` logs every invocation of a
compute function (one entry per invocation, tagged with its key), and
`delivered` logs every outcome delivered to a caller. -/
structure CacheState where
  entries : List (Key × EntryState)
  invocations : List Key
  delivered : List (Nat × Key × Outcome)
deriving DecidableEq

/-- The empty cache a run starts with. -/
def initialState : CacheState :=
  { entries := [], invocations := [], delivered := [] }

/-- Modelled from the spec: the observable events of the cooperative run
(§5).  `request caller name input` is a call to
getOrCompute(name, input, f); `settle name key o` is the asynchronous
completion of the single in-flight computation for (name, key). -/
inductive Event where
  | request (caller : Nat) (name : String) (input : ArtifactInstance)
  | settle (name : String) (key : Value) (o : Outcome)
deriving DecidableEq

/-- Modelled from the spec: one step of the cache (§4.2).  A request on a
miss records a compute invocation and creates a pending entry with the
caller attached; on a pending entry it attaches the caller as a further
waiter; on a settled entry it immediately delivers the cached outcome.  A
settle transitions a pending entry to settled and delivers the outcome to
every attached waiter; a settled entry never changes again. -/
def step (st : CacheState) (e : Event) : CacheState :=
  match e with
  | .request c name a =>
      let k : Key := (name, eqKey a)
      match lookupEntry st.entries k with
      | none =>
          { st with
            entries := (k, .pending [c]) :: st.entries
            invocations := k :: st.invocations }
      | some (.pending ws) =>
          { st with entries := setEntry st.entries k (.pending (c :: ws)) }
      | some (.settled o) =>
          { st with delivered := (c, k, o) :: st.delivered }
  | .settle name kv o =>
      let k : Key := (name, kv)
      match lookupEntry st.entries k with
      | some (.pending ws) =>
          { st with
            entries := setEntry st.entries k (.settled o)
            delivered := ws.map (fun c => (c, k, o)) ++ st.delivered }
      | _ => st

/-- Run a whole trace of events from a starting cache state. -/
def runTrace (st : CacheState) (es : List Event) : CacheState :=
  es.foldl step st

/-- Number of logged compute invocations for a key. -/
def countKey (k : Key) : List Key → Nat
  | [] => 0
  | k0 :: rest => (if k0 = k then 1 else 0) + countKey k rest

/-- The outcomes delivered to callers for a given key, newest first. -/
def deliveredFor (k : Key) : List (Nat × Key × Outcome) → List Outcome
  | [] => []
  | (_, k0, o) :: rest =>
      if k0 = k then o :: deliveredFor k rest else deliveredFor k rest

/-- The single-flight cache invariant: a key never seen has no invocation
and no delivery; a pending key has exactly one invocation and no delivery
yet; a settled key has exactly one invocation and every delivered outcome
equals the settled one. -/
def CacheInv (st : CacheState) : Prop :=
  ∀ k : Key,
    (lookupEntry st.entries k = none →
        countKey k st.invocations = 0 ∧ deliveredFor k st.delivered = []) ∧
    (∀ ws, lookupEntry st.entries k = some (.pending ws) →
        countKey k st.invocations = 1 ∧ deliveredFor k st.delivered = []) ∧
    (∀ o, lookupEntry st.entries k = some (.settled o) →
        countKey k st.invocations = 1 ∧
          ∀ o' ∈ deliveredFor k st.delivered, o' = o)

/-- From src/types/audit.d.ts lines 23-29 (Audit.ProductMetricSavings):
estimated metric savings attached to a Product, numbers as rationals. -/
structure ProductMetricSavings where
  FCP : Option ℚ := none
  LCP : Option ℚ := none
  TBT : Option ℚ := none
  CLS : Option ℚ := none
  INP : Option ℚ := none
deriving DecidableEq

/-- From src/types/audit.d.ts lines 43-46 (Audit.ScoreOptions): the p10 and
median control points for log-normal scoring. -/
structure ScoreOptions where
  p10 : ℚ
  median : ℚ
deriving DecidableEq

/-- Modelled from the spec: the score display modes the spec names (scored
numeric/binary modes, manual, informative, error and not-applicable);
`AuditResult.ScoreDisplayMode` itself is declared outside src/. -/
inductive ScoreDisplayMode where
  | numeric
  | binary
  | manual
  | informative
  | notApplicable
  | error
deriving DecidableEq

/-- From src/types/audit.d.ts line 117 (Audit.NumericProduct.numericUnit):
the unit tag accompanying a numeric value is one of exactly these four. -/
inductive NumericUnit where
  | byte
  | millisecond
  | element
  | unitless
deriving DecidableEq

/-- The string literal of each unit tag, as written in the union type on
src/types/audit.d.ts line 117. -/
def NumericUnit.toTag : NumericUnit → String
  | .byte => "byte"
  | .millisecond => "millisecond"
  | .element => "element"
  | .unitless => "unitless"

/-- The four string literals of the union type on src/types/audit.d.ts
line 117, in source order. -/
def validNumericUnitTags : List String :=
  ["byte", "millisecond", "element", "unitless"]

/-- From src/types/audit.d.ts lines 81-118: the runtime shape of an
Audit.Product.  The static source type is a discriminated union forcing
`numericUnit` to accompany `numericValue`; at runtime the two fields are
independently optional and the pairing is validated by the execution unit
(spec §4.3 step 4).  Opaque IcuMessage values are embedded as strings,
opaque details are omitted. -/
structure Product where
  score : Option ℚ
  displayValue : Option String := none
  explanation : Option String := none
  errorMessage : Option String := none
  errorStack : Option String := none
  warnings : List String := []
  notApplicable : Option Bool := none
  runWarnings : List String := []
  metricSavings : Option ProductMetricSavings := none
  scoringOptions : Option ScoreOptions := none
  scoreDisplayMode : Option ScoreDisplayMode := none
  numericValue : Option ℚ := none
  numericUnit : Option NumericUnit := none
deriving DecidableEq

/-- From src/types/audit.d.ts lines 48-69 (Audit.Meta).  IcuMessage titles
are embedded as strings and `keyof Artifacts` as artifact-name strings. -/
structure Meta where
  id : String
  title : String
  failureTitle : Option String := none
  description : String
  requiredArtifacts : List String
  __internalOptionalArtifacts : Option (List String) := none
  scoreDisplayMode : Option ScoreDisplayMode := none
  supportedModes : Option (List String) := none
  guidanceLevel : Option Nat := none
  replacesAudits : Option (List String) := none
deriving DecidableEq

/-- Modelled from the spec (§6): a provided artifact carries a value or an
error marker. -/
inductive ArtifactEntry where
  | ok (v : Value)
  | errorMarker (e : String)
deriving DecidableEq

/-- The provided artifact set: a finite mapping of artifact names. -/
abbrev ArtifactSet := List (String × ArtifactEntry)

/-- Association-list lookup of a provided artifact by name. -/
def lookupArtifact : ArtifactSet → String → Option ArtifactEntry
  | [], _ => none
  | (nm, a) :: rest, n => if nm = n then some a else lookupArtifact rest n

/-- From src/types/audit.d.ts lines 31-41 (Audit.Context): immutable bundle
of audit options, settings and the computed-cache handle; the opaque
options/settings bags are embedded as key/value lists. -/
structure Context where
  options : List (String × Value)
  settings : List (String × Value)
  computedCache : CacheState
deriving DecidableEq

/-- Modelled from the spec (§4.3): pluggable audit logic — fallible,
returning a Product or raising a failure. -/
abbrev AuditLogic : Type :=
  ArtifactSet → Context → Except String Product

/-- Modelled from the spec (§3): the report-facing Result, restricted to
the fields the claims constrain — identifier, score, finalized display
mode and error information (the full Result type is declared outside
src/). -/
structure RResult where
  auditId : String
  score : Option ℚ
  scoreDisplayMode : ScoreDisplayMode
  errorMessage : Option String := none
  errorStack : Option String := none
deriving DecidableEq

/-- Whether a provided artifact is present and not an error marker. -/
def artifactOk (arts : ArtifactSet) (nm : String) : Bool :=
  match lookupArtifact arts nm with
  | some (.ok _) => true
  | _ => false

/-- Modelled from the spec (§4.3 step 1): some required artifact is absent
from the provided set or carries an error marker. -/
def requiredMissing (meta : Meta) (arts : ArtifactSet) : Bool :=
  meta.requiredArtifacts.any fun r => !(artifactOk arts r)

/-- Modelled from the spec (§4.3/§7): an audit-error Result. -/
def errorResult (meta : Meta) (msg : String) (stack : Option String) :
    RResult :=
  { auditId := meta.id
    score := none
    scoreDisplayMode := .error
    errorMessage := some msg
    errorStack := stack }

/-- Modelled from the spec (§4.3 step 5, src lines 93 and 103): the final
display mode — an explicit notApplicable flag overrides everything, else
the Product-declared mode overrides the Meta-declared mode, else the
default scored mode. -/
def finalizeMode (meta : Meta) (p : Product) : ScoreDisplayMode :=
  if p.notApplicable = some true then .notApplicable
  else
    match p.scoreDisplayMode with
    | some m => m
    | none => meta.scoreDisplayMode.getD .numeric

/-- Modelled from the spec (§4.3): the Audit Execution Unit.  The second
component records whether the audit logic was invoked, so non-invocation
guarantees can be stated.  Steps: required-artifact check, logic invocation
with failure capture, numericValue/numericUnit pairing validation,
notApplicable override, Meta merge. -/
def runAudit (meta : Meta) (logic : AuditLogic) (ctx : Context)
    (arts : ArtifactSet) : RResult × Bool :=
  if requiredMissing meta arts then
    (errorResult meta "A required artifact was missing or errored" none,
      false)
  else
    match logic arts ctx with
    | .error e => (errorResult meta e (some e), true)
    | .ok p =>
        if p.numericValue.isSome ≠ p.numericUnit.isSome then
          (errorResult meta "numericValue was provided without numericUnit"
            none, true)
        else
          ({ auditId := meta.id
             score := p.score
             scoreDisplayMode := finalizeMode meta p
             errorMessage := p.errorMessage
             errorStack := p.errorStack }, true)

/-- Modelled from the spec (§4.3): run(auditMeta, auditLogic, context,
availableArtifacts) → Result. -/
def run (meta : Meta) (logic : AuditLogic) (ctx : Context)
    (arts : ArtifactSet) : RResult :=
  (runAudit meta logic ctx arts).1

/-- Modelled from the spec (§7): a run attempts every configured audit in
order, each in isolation, producing one Result per attempted audit. -/
def runAll (audits : List (Meta × AuditLogic)) (ctx : Context)
    (arts : ArtifactSet) : List RResult :=
  audits.map fun al => run al.1 al.2 ctx arts

/-- Modelled from the spec (§4.5): every audit id listed as replaced by
some executed audit. -/
def replacedIds (entries : List (Meta × RResult)) : List String :=
  (entries.map fun e => e.1.replacesAudits.getD []).flatten

/-- Modelled from the spec (§4.5): the Result Aggregator's externally
visible Result set — the Results of the executed audits that are not
replaced by any executed audit. -/
def visibleResults (entries : List (Meta × RResult)) : List RResult :=
  (entries.filter fun e => decide (e.1.id ∉ replacedIds entries)).map
    fun e => e.2

/-- Modelled from the spec (§4.4): the Scoring Normalizer.  The spec fixes
the curve only through its constraints: output clamped to [0,1], raw value
at or below zero still scores (near 1), the median control point scores
1/2, the p10 control point scores ≈0.9, and the score decreases
monotonically in the raw value.  It is realised in the closed form
1 / (1 + (value/median)^c) with exponent c = log 9 / log (median/p10),
which meets the p10 anchor exactly at 9/10. -/
noncomputable def logNormalScore (p10 median value : ℝ) : ℝ :=
  if value ≤ 0 then 1
  else
    min 1 (max 0
      (1 / (1 + (value / median) ^ (Real.log 9 / Real.log (median / p10)))))

/-- A minimal executed-audit Meta used in concrete scenarios: id and the
list of replaced audit ids. -/
def metaOf (i : String) (reps : Option (List String)) : Meta :=
  { id := i
    title := i
    description := i
    requiredArtifacts := []
    replacesAudits := reps }

/-- A minimal Result used in concrete scenarios. -/
def resOf (i : String) : RResult :=
  { auditId := i, score := none, scoreDisplayMode := .binary }

/-- A replacement chain of executed audits: X replaces Y, and Z replaces
X. -/
def chainEntries : List (Meta × RResult) :=
  [(metaOf "X" (some ["Y"]), resOf "X"),
   (metaOf "Y" none, resOf "Y"),
   (metaOf "Z" (some ["X"]), resOf "Z")]

/-- A concrete run Context with an empty cache, for concrete scenarios. -/
def ctx0 : Context :=
  { options := [], settings := [], computedCache := initialState }

theorem lookupEntry_setEntry_self (es : List (Key × EntryState)) (k : Key)
    (s : EntryState) :
    lookupEntry (setEntry es k s) k = (lookupEntry es k).map (fun _ => s) := by
  induction es with
  | nil => rfl
  | cons p rest ih =>
      obtain ⟨k0, s0⟩ := p
      by_cases h : k0 = k
      · simp [setEntry, lookupEntry, h]
      · simp [setEntry, lookupEntry, h, ih]

theorem lookupEntry_setEntry_other (es : List (Key × EntryState)) (k k' : Key)
    (s : EntryState) (h : k' ≠ k) :
    lookupEntry (setEntry es k s) k' = lookupEntry es k' := by
  induction es with
  | nil => rfl
  | cons p rest ih =>
      obtain ⟨k0, s0⟩ := p
      by_cases hk : k0 = k
      · subst hk
        simp [setEntry, lookupEntry, Ne.symm h]
      · by_cases hk' : k0 = k'
        · simp [setEntry, lookupEntry, hk, hk', h]
        · simp [setEntry, lookupEntry, hk, hk', ih]

theorem deliveredFor_append (k : Key) (l1 l2 : List (Nat × Key × Outcome)) :
    deliveredFor k (l1 ++ l2) = deliveredFor k l1 ++ deliveredFor k l2 := by
  induction l1 with
  | nil => rfl
  | cons p rest ih =>
      obtain ⟨c, k0, o⟩ := p
      by_cases h : k0 = k
      · simp [deliveredFor, h, ih]
      · simp [deliveredFor, h, ih]

theorem deliveredFor_map_self (k : Key) (o : Outcome) (ws : List Nat) :
    ∀ o' ∈ deliveredFor k (ws.map fun c => (c, k, o)), o' = o := by
  induction ws with
  | nil => simp [deliveredFor]
  | cons c rest ih =>
      have hstep : deliveredFor k (List.map (fun c => (c, k, o)) (c :: rest)) =
          o :: deliveredFor k (List.map (fun c => (c, k, o)) rest) := by
        simp [deliveredFor]
      simp only [hstep, List.mem_cons]
      intro o' h
      rcases h with h1 | h1
      · exact h1
      · exact ih o' h1

theorem deliveredFor_map_other (k k' : Key) (o : Outcome) (ws : List Nat)
    (h : k ≠ k') :
    deliveredFor k' (ws.map fun c => (c, k, o)) = [] := by
  induction ws with
  | nil => rfl
  | cons c rest ih => simp [deliveredFor, h, ih]

theorem lookupEntry_cons_self (es : List (Key × EntryState)) (k : Key)
    (s : EntryState) : lookupEntry ((k, s) :: es) k = some s := by
  simp [lookupEntry]

theorem lookupEntry_cons_other (es : List (Key × EntryState)) (k k' : Key)
    (s : EntryState) (h : k' ≠ k) :
    lookupEntry ((k, s) :: es) k' = lookupEntry es k' := by
  simp [lookupEntry, Ne.symm h]

theorem countKey_cons (k k0 : Key) (l : List Key) :
    countKey k (k0 :: l) = (if k0 = k then 1 else 0) + countKey k l := by
  simp [countKey]

theorem deliveredFor_cons (k k0 : Key) (c : Nat) (o : Outcome)
    (l : List (Nat × Key × Outcome)) :
    deliveredFor k ((c, k0, o) :: l) =
      if k0 = k then o :: deliveredFor k l else deliveredFor k l := by
  simp [deliveredFor]

theorem step_request_none (st : CacheState) (c : Nat) (name : String)
    (a : ArtifactInstance)
    (hcase : lookupEntry st.entries (name, eqKey a) = none) :
    step st (.request c name a) =
      { st with
        entries := ((name, eqKey a), .pending [c]) :: st.entries
        invocations := (name, eqKey a) :: st.invocations } := by
  simp [step, hcase]

theorem step_request_pending (st : CacheState) (c : Nat) (name : String)
    (a : ArtifactInstance) (ws : List Nat)
    (hcase : lookupEntry st.entries (name, eqKey a) = some (.pending ws)) :
    step st (.request c name a) =
      { st with
        entries := setEntry st.entries (name, eqKey a) (.pending (c :: ws)) } := by
  simp [step, hcase]

theorem step_request_settled (st : CacheState) (c : Nat) (name : String)
    (a : ArtifactInstance) (o : Outcome)
    (hcase : lookupEntry st.entries (name, eqKey a) = some (.settled o)) :
    step st (.request c name a) =
      { st with delivered := (c, (name, eqKey a), o) :: st.delivered } := by
  simp [step, hcase]

theorem step_settle_pending (st : CacheState) (name : String) (kv : Value)
    (o : Outcome) (ws : List Nat)
    (hcase : lookupEntry st.entries (name, kv) = some (.pending ws)) :
    step st (.settle name kv o) =
      { st with
        entries := setEntry st.entries (name, kv) (.settled o)
        delivered := ws.map (fun c => (c, (name, kv), o)) ++ st.delivered } := by
  simp [step, hcase]

theorem step_settle_none (st : CacheState) (name : String) (kv : Value)
    (o : Outcome) (hcase : lookupEntry st.entries (name, kv) = none) :
    step st (.settle name kv o) = st := by
  simp [step, hcase]

theorem step_settle_settled (st : CacheState) (name : String) (kv : Value)
    (o o0 : Outcome)
    (hcase : lookupEntry st.entries (name, kv) = some (.settled o0)) :
    step st (.settle name kv o) = st := by
  simp [step, hcase]

theorem cacheInv_initial : CacheInv initialState := by
  intro k
  refine ⟨fun _ => ⟨rfl, rfl⟩, fun ws h => ?_, fun o h => ?_⟩ <;>
    simp [initialState, lookupEntry] at h

theorem cacheInv_step (st : CacheState) (e : Event) (h : CacheInv st) :
    CacheInv (step st e) := by
  cases e with
  | request c name a =>
      cases hcase : lookupEntry st.entries (name, eqKey a) with
      | none =>
          rw [step_request_none st c name a hcase]
          obtain ⟨hc0, hd0⟩ := (h (name, eqKey a)).1 hcase
          intro k
          by_cases hk : k = (name, eqKey a)
          · subst hk
            refine ⟨fun heq => ?_, fun ws heq => ?_, fun o heq => ?_⟩
            · rw [lookupEntry_cons_self] at heq; cases heq
            · rw [lookupEntry_cons_self] at heq
              simp [countKey_cons, hc0, hd0]
            · rw [lookupEntry_cons_self] at heq; cases heq
          · refine ⟨fun heq => ?_, fun ws heq => ?_, fun o heq => ?_⟩ <;>
              rw [lookupEntry_cons_other _ _ _ _ hk] at heq <;>
              simp only [countKey_cons, if_neg (Ne.symm hk), Nat.zero_add]
            · exact (h k).1 heq
            · exact (h k).2.1 ws heq
            · exact (h k).2.2 o heq
      | some s =>
          cases s with
          | pending ws0 =>
              rw [step_request_pending st c name a ws0 hcase]
              obtain ⟨hc0, hd0⟩ := (h (name, eqKey a)).2.1 ws0 hcase
              intro k
              by_cases hk : k = (name, eqKey a)
              · subst hk
                refine ⟨fun heq => ?_, fun ws heq => ?_, fun o heq => ?_⟩ <;>
                  rw [lookupEntry_setEntry_self, hcase] at heq
                · cases heq
                · exact ⟨hc0, hd0⟩
                · cases heq
              · refine ⟨fun heq => ?_, fun ws heq => ?_, fun o heq => ?_⟩ <;>
                  rw [lookupEntry_setEntry_other _ _ _ _ hk] at heq
                · exact (h k).1 heq
                · exact (h k).2.1 ws heq
                · exact (h k).2.2 o heq
          | settled o0 =>
              rw [step_request_settled st c name a o0 hcase]
              obtain ⟨hc0, hd0⟩ := (h (name, eqKey a)).2.2 o0 hcase
              intro k
              by_cases hk : k = (name, eqKey a)
              · subst hk
                refine ⟨fun heq => ?_, fun ws heq => ?_, fun o heq => ?_⟩ <;>
                  rw [hcase] at heq
                · cases heq
                · cases heq
                · cases heq
                  refine ⟨hc0, ?_⟩
                  intro o' ho'
                  rw [deliveredFor_cons, if_pos rfl] at ho'
                  rcases List.mem_cons.mp ho' with h1 | h1
                  · exact h1
                  · exact hd0 o' h1
              · refine ⟨fun heq => ?_, fun ws heq => ?_, fun o heq => ?_⟩ <;>
                  simp only [deliveredFor_cons, if_neg (Ne.symm hk)]
                · exact (h k).1 heq
                · exact (h k).2.1 ws heq
                · exact (h k).2.2 o heq
  | settle name kv o =>
      cases hcase : lookupEntry st.entries (name, kv) with
      | none =>
          rw [step_settle_none st name kv o hcase]; exact h
      | some s =>
          cases s with
          | settled o0 =>
              rw [step_settle_settled st name kv o o0 hcase]; exact h
          | pending ws0 =>
              rw [step_settle_pending st name kv o ws0 hcase]
              obtain ⟨hc0, hd0⟩ := (h (name, kv)).2.1 ws0 hcase
              intro k
              by_cases hk : k = (name, kv)
              · subst hk
                refine ⟨fun heq => ?_, fun ws heq => ?_, fun o1 heq => ?_⟩ <;>
                  rw [lookupEntry_setEntry_self, hcase] at heq
                · cases heq
                · cases heq
                · cases heq
                  refine ⟨hc0, ?_⟩
                  intro o' ho'
                  rw [deliveredFor_append, hd0, List.append_nil] at ho'
                  exact deliveredFor_map_self _ _ _ o' ho'
              · refine ⟨fun heq => ?_, fun ws heq => ?_, fun o1 heq => ?_⟩ <;>
                  rw [lookupEntry_setEntry_other _ _ _ _ hk] at heq <;>
                  rw [deliveredFor_append,
                    deliveredFor_map_other _ _ _ _ (Ne.symm hk), List.nil_append]
                · exact (h k).1 heq
                · exact (h k).2.1 ws heq
                · exact (h k).2.2 o1 heq

theorem cacheInv_runTrace (st : CacheState) (es : List Event)
    (h : CacheInv st) : CacheInv (runTrace st es) := by
  induction es generalizing st with
  | nil => exact h
  | cons e rest ih => exact ih (step st e) (cacheInv_step st e h)

theorem runTrace_append (st : CacheState) (l1 l2 : List Event) :
    runTrace st (l1 ++ l2) = runTrace (runTrace st l1) l2 := by
  simp [runTrace, List.foldl_append]

theorem runTrace_cons (st : CacheState) (e : Event) (l : List Event) :
    runTrace st (e :: l) = runTrace (step st e) l := rfl

theorem settled_step (st : CacheState) (e : Event) (k : Key) (o : Outcome)
    (h : lookupEntry st.entries k = some (.settled o)) :
    lookupEntry (step st e).entries k = some (.settled o) := by
  cases e with
  | request c name a =>
      cases hcase : lookupEntry st.entries (name, eqKey a) with
      | none =>
          rw [step_request_none st c name a hcase]
          by_cases hk : k = (name, eqKey a)
          · subst hk; rw [hcase] at h; cases h
          · rw [lookupEntry_cons_other _ _ _ _ hk]; exact h
      | some s =>
          cases s with
          | pending ws =>
              rw [step_request_pending st c name a ws hcase]
              by_cases hk : k = (name, eqKey a)
              · subst hk; rw [hcase] at h; cases h
              · rw [lookupEntry_setEntry_other _ _ _ _ hk]; exact h
          | settled o0 =>
              rw [step_request_settled st c name a o0 hcase]; exact h
  | settle name kv o0 =>
      cases hcase : lookupEntry st.entries (name, kv) with
      | none => rw [step_settle_none st name kv o0 hcase]; exact h
      | some s =>
          cases s with
          | settled o1 => rw [step_settle_settled st name kv o0 o1 hcase]; exact h
          | pending ws =>
              rw [step_settle_pending st name kv o0 ws hcase]
              by_cases hk : k = (name, kv)
              · subst hk; rw [hcase] at h; cases h
              · rw [lookupEntry_setEntry_other _ _ _ _ hk]; exact h

theorem settled_runTrace (st : CacheState) (es : List Event) (k : Key)
    (o : Outcome) (h : lookupEntry st.entries k = some (.settled o)) :
    lookupEntry (runTrace st es).entries k = some (.settled o) := by
  induction es generalizing st with
  | nil => exact h
  | cons e rest ih => exact ih (step st e) (settled_step st e k o h)

theorem present_step (st : CacheState) (e : Event) (k : Key) (s : EntryState)
    (h : lookupEntry st.entries k = some s) :
    ∃ s', lookupEntry (step st e).entries k = some s' := by
  cases e with
  | request c name a =>
      cases hcase : lookupEntry st.entries (name, eqKey a) with
      | none =>
          rw [step_request_none st c name a hcase]
          by_cases hk : k = (name, eqKey a)
          · subst hk; exact ⟨_, lookupEntry_cons_self _ _ _⟩
          · rw [lookupEntry_cons_other _ _ _ _ hk]; exact ⟨s, h⟩
      | some s0 =>
          cases s0 with
          | pending ws =>
              rw [step_request_pending st c name a ws hcase]
              by_cases hk : k = (name, eqKey a)
              · subst hk
                rw [lookupEntry_setEntry_self, hcase]
                exact ⟨_, rfl⟩
              · rw [lookupEntry_setEntry_other _ _ _ _ hk]; exact ⟨s, h⟩
          | settled o0 =>
              rw [step_request_settled st c name a o0 hcase]; exact ⟨s, h⟩
  | settle name kv o0 =>
      cases hcase : lookupEntry st.entries (name, kv) with
      | none => rw [step_settle_none st name kv o0 hcase]; exact ⟨s, h⟩
      | some s0 =>
          cases s0 with
          | settled o1 =>
              rw [step_settle_settled st name kv o0 o1 hcase]; exact ⟨s, h⟩
          | pending ws =>
              rw [step_settle_pending st name kv o0 ws hcase]
              by_cases hk : k = (name, kv)
              · subst hk
                rw [lookupEntry_setEntry_self, hcase]
                exact ⟨_, rfl⟩
              · rw [lookupEntry_setEntry_other _ _ _ _ hk]; exact ⟨s, h⟩

theorem present_runTrace (st : CacheState) (es : List Event) (k : Key)
    (h : ∃ s, lookupEntry st.entries k = some s) :
    ∃ s', lookupEntry (runTrace st es).entries k = some s' := by
  induction es generalizing st with
  | nil => exact h
  | cons e rest ih =>
      obtain ⟨s, hs⟩ := h
      exact ih (step st e) (present_step st e k s hs)

theorem request_creates_entry (st : CacheState) (c : Nat) (name : String)
    (a : ArtifactInstance) :
    ∃ s, lookupEntry (step st (.request c name a)).entries
      (name, eqKey a) = some s := by
  cases hcase : lookupEntry st.entries (name, eqKey a) with
  | none =>
      rw [step_request_none st c name a hcase]
      exact ⟨_, lookupEntry_cons_self _ _ _⟩
  | some s =>
      cases s with
      | pending ws =>
          rw [step_request_pending st c name a ws hcase]
          rw [lookupEntry_setEntry_self, hcase]
          exact ⟨_, rfl⟩
      | settled o =>
          rw [step_request_settled st c name a o hcase]
          exact ⟨_, hcase⟩

theorem cacheInv_count_le_one (st : CacheState) (h : CacheInv st) (k : Key) :
    countKey k st.invocations ≤ 1 := by
  cases hl : lookupEntry st.entries k with
  | none => rw [((h k).1 hl).1]; exact Nat.zero_le 1
  | some s =>
      cases s with
      | pending ws => rw [((h k).2.1 ws hl).1]
      | settled o => rw [((h k).2.2 o hl).1]

theorem cacheInv_deliveries_agree (st : CacheState) (h : CacheInv st) (k : Key) :
    ∀ o1 ∈ deliveredFor k st.delivered, ∀ o2 ∈ deliveredFor k st.delivered,
      o1 = o2 := by
  cases hl : lookupEntry st.entries k with
  | none =>
      intro o1 h1
      rw [((h k).1 hl).2] at h1
      cases h1
  | some s =>
      cases s with
      | pending ws =>
          intro o1 h1
          rw [((h k).2.1 ws hl).2] at h1
          cases h1
      | settled o =>
          intro o1 h1 o2 h2
          rw [((h k).2.2 o hl).2 o1 h1, ((h k).2.2 o hl).2 o2 h2]

theorem present_count_one (st : CacheState) (h : CacheInv st) (k : Key)
    (hp : ∃ s, lookupEntry st.entries k = some s) :
    countKey k st.invocations = 1 := by
  obtain ⟨s, hs⟩ := hp
  cases s with
  | pending ws => exact ((h k).2.1 ws hs).1
  | settled o => exact ((h k).2.2 o hs).1

/-- Claim C1: for every computation name and every two input artifact
instances with structurally equal values but distinct instance identities,
two getOrCompute requests (with arbitrary surrounding run activity) cause
at most one compute invocation combined for their shared key, and every
outcome delivered for that key is the same cached one. -/
theorem c1_structural_equality_no_recompute (name : String)
    (a1 a2 : ArtifactInstance) (caller1 caller2 : Nat)
    (pre mid post : List Event)
    (hval : a1.value = a2.value) (hinst : a1.instId ≠ a2.instId) :
    eqKey a1 = eqKey a2 ∧
    countKey (name, eqKey a1)
      (runTrace initialState
        (pre ++ Event.request caller1 name a1 :: mid ++
          Event.request caller2 name a2 :: post)).invocations ≤ 1 ∧
    ∀ o1 ∈ deliveredFor (name, eqKey a1)
        (runTrace initialState
          (pre ++ Event.request caller1 name a1 :: mid ++
            Event.request caller2 name a2 :: post)).delivered,
      ∀ o2 ∈ deliveredFor (name, eqKey a2)
          (runTrace initialState
            (pre ++ Event.request caller1 name a1 :: mid ++
              Event.request caller2 name a2 :: post)).delivered,
        o1 = o2 := by
  have hinv := cacheInv_runTrace initialState
    (pre ++ Event.request caller1 name a1 :: mid ++
      Event.request caller2 name a2 :: post) cacheInv_initial
  refine ⟨hval, cacheInv_count_le_one _ hinv _, ?_⟩
  simp only [eqKey]
  rw [hval]
  exact cacheInv_deliveries_agree _ hinv (name, a2.value)

theorem c1_witness :
    ((⟨0, Value.num 7⟩ : ArtifactInstance).value =
      (⟨1, Value.num 7⟩ : ArtifactInstance).value) ∧
    countKey ("speedline", eqKey ⟨0, Value.num 7⟩)
      (runTrace initialState
        ([] ++ Event.request 0 "speedline" ⟨0, Value.num 7⟩ :: [] ++
          Event.request 1 "speedline" ⟨1, Value.num 7⟩ ::
            [Event.settle "speedline" (Value.num 7)
              (Outcome.resolved (Value.num 42))])).invocations ≤ 1 :=
  ⟨rfl,
    (c1_structural_equality_no_recompute "speedline" ⟨0, Value.num 7⟩
      ⟨1, Value.num 7⟩ 0 1 [] []
      [Event.settle "speedline" (Value.num 7) (Outcome.resolved (Value.num 42))]
      rfl (by decide)).2.1⟩

/-- Claim C2: in any interleaved run containing at least one getOrCompute
request for (name, key), the compute function for that key is invoked
exactly once, and all outcomes delivered to callers for that key (whether
they started the computation or attached while it was pending) agree. -/
theorem c2_single_flight_exactly_once (tr : List Event) (name : String)
    (k : Value)
    (hreq : ∃ c a, Event.request c name a ∈ tr ∧ eqKey a = k) :
    countKey (name, k) (runTrace initialState tr).invocations = 1 ∧
    ∀ o1 ∈ deliveredFor (name, k) (runTrace initialState tr).delivered,
      ∀ o2 ∈ deliveredFor (name, k) (runTrace initialState tr).delivered,
        o1 = o2 := by
  obtain ⟨c, a, hmem, hk⟩ := hreq
  obtain ⟨l1, l2, rfl⟩ := List.append_of_mem hmem
  subst hk
  have hinv := cacheInv_runTrace initialState
    (l1 ++ Event.request c name a :: l2) cacheInv_initial
  refine ⟨?_, cacheInv_deliveries_agree _ hinv _⟩
  have hpres := present_runTrace
    (step (runTrace initialState l1) (Event.request c name a)) l2
    (name, eqKey a) (request_creates_entry (runTrace initialState l1) c name a)
  rw [runTrace_append, runTrace_cons] at hinv ⊢
  exact present_count_one _ hinv _ hpres

theorem c2_witness :
    countKey ("speedline", Value.num 7)
      (runTrace initialState
        [Event.request 0 "speedline" ⟨0, Value.num 7⟩,
         Event.request 1 "speedline" ⟨1, Value.num 7⟩,
         Event.settle "speedline" (Value.num 7)
           (Outcome.resolved (Value.num 42))]).invocations = 1 :=
  (c2_single_flight_exactly_once
    [Event.request 0 "speedline" ⟨0, Value.num 7⟩,
     Event.request 1 "speedline" ⟨1, Value.num 7⟩,
     Event.settle "speedline" (Value.num 7) (Outcome.resolved (Value.num 42))]
    "speedline" (Value.num 7)
    ⟨0, ⟨0, Value.num 7⟩, by decide, rfl⟩).1

/-- Claim C3: once a computation for (name, key) has failed in a run, the
entry stays failed forever, no further events add compute invocations for
that key, and every outcome ever delivered for that key is the cached
failure. -/
theorem c3_failure_cached_never_retried (tr1 tr2 : List Event)
    (name : String) (k : Value) (e : String)
    (hfail : lookupEntry (runTrace initialState tr1).entries (name, k) =
      some (.settled (.failed e))) :
    lookupEntry (runTrace initialState (tr1 ++ tr2)).entries (name, k) =
      some (.settled (.failed e)) ∧
    countKey (name, k) (runTrace initialState (tr1 ++ tr2)).invocations =
      countKey (name, k) (runTrace initialState tr1).invocations ∧
    ∀ o ∈ deliveredFor (name, k)
        (runTrace initialState (tr1 ++ tr2)).delivered,
      o = Outcome.failed e := by
  have hinv1 := cacheInv_runTrace initialState tr1 cacheInv_initial
  have hinv2 := cacheInv_runTrace initialState (tr1 ++ tr2) cacheInv_initial
  have hset : lookupEntry (runTrace initialState (tr1 ++ tr2)).entries
      (name, k) = some (.settled (.failed e)) := by
    rw [runTrace_append]
    exact settled_runTrace _ tr2 _ _ hfail
  refine ⟨hset, ?_, ((hinv2 (name, k)).2.2 _ hset).2⟩
  rw [((hinv2 (name, k)).2.2 _ hset).1, ((hinv1 (name, k)).2.2 _ hfail).1]

theorem c3_witness :
    lookupEntry
      (runTrace initialState
        ([Event.request 0 "tbt" ⟨0, Value.num 3⟩,
          Event.settle "tbt" (Value.num 3) (Outcome.failed "boom")] ++
         [Event.request 1 "tbt" ⟨1, Value.num 3⟩])).entries
      ("tbt", Value.num 3) = some (.settled (.failed "boom")) ∧
    countKey ("tbt", Value.num 3)
      (runTrace initialState
        ([Event.request 0 "tbt" ⟨0, Value.num 3⟩,
          Event.settle "tbt" (Value.num 3) (Outcome.failed "boom")] ++
         [Event.request 1 "tbt" ⟨1, Value.num 3⟩])).invocations =
      countKey ("tbt", Value.num 3)
        (runTrace initialState
          [Event.request 0 "tbt" ⟨0, Value.num 3⟩,
           Event.settle "tbt" (Value.num 3) (Outcome.failed "boom")]).invocations :=
  ⟨(c3_failure_cached_never_retried
      [Event.request 0 "tbt" ⟨0, Value.num 3⟩,
       Event.settle "tbt" (Value.num 3) (Outcome.failed "boom")]
      [Event.request 1 "tbt" ⟨1, Value.num 3⟩]
      "tbt" (Value.num 3) "boom" (by decide)).1,
   (c3_failure_cached_never_retried
      [Event.request 0 "tbt" ⟨0, Value.num 3⟩,
       Event.settle "tbt" (Value.num 3) (Outcome.failed "boom")]
      [Event.request 1 "tbt" ⟨1, Value.num 3⟩]
      "tbt" (Value.num 3) "boom" (by decide)).2.1⟩

/-- Claim C4: the execution unit validates the numericValue/numericUnit
pairing; a Product with numericValue set but numericUnit absent (or vice
versa) is rejected and converted to an error Result (score null, error
mode, error message set) rather than silently coerced. -/
theorem c4_numeric_pairing_validated (meta : Meta) (logic : AuditLogic)
    (ctx : Context) (arts : ArtifactSet) (p : Product)
    (hmiss : requiredMissing meta arts = false)
    (hok : logic arts ctx = Except.ok p)
    (hbad : p.numericValue.isSome ≠ p.numericUnit.isSome) :
    (run meta logic ctx arts).score = none ∧
    (run meta logic ctx arts).scoreDisplayMode = ScoreDisplayMode.error ∧
    (run meta logic ctx arts).errorMessage.isSome = true := by
  have h1 : runAudit meta logic ctx arts =
      (errorResult meta "numericValue was provided without numericUnit" none,
        true) := by
    simp [runAudit, hmiss, hok, hbad]
  simp [run, h1, errorResult]

theorem c4_witness :
    (run (metaOf "numeric-audit" none)
      (fun _ _ => Except.ok { score := some 1, numericValue := some 5 })
      ctx0 []).score = none ∧
    (run (metaOf "numeric-audit" none)
      (fun _ _ => Except.ok { score := some 1, numericValue := some 5 })
      ctx0 []).scoreDisplayMode = ScoreDisplayMode.error ∧
    (run (metaOf "numeric-audit" none)
      (fun _ _ => Except.ok { score := some 1, numericValue := some 5 })
      ctx0 []).errorMessage.isSome = true :=
  c4_numeric_pairing_validated (metaOf "numeric-audit" none)
    (fun _ _ => Except.ok { score := some 1, numericValue := some 5 })
    ctx0 [] { score := some 1, numericValue := some 5 } rfl rfl (by decide)

/-- Claim C5: when a required artifact is absent from the provided set or
carries an error marker, the audit logic is never invoked and the Result
has score null with a not-applicable or error outcome. -/
theorem c5_missing_required_artifact_skips_logic (meta : Meta)
    (logic : AuditLogic) (ctx : Context) (arts : ArtifactSet)
    (hmiss : ∃ r ∈ meta.requiredArtifacts, lookupArtifact arts r = none ∨
      ∃ e, lookupArtifact arts r = some (.errorMarker e)) :
    (runAudit meta logic ctx arts).2 = false ∧
    (runAudit meta logic ctx arts).1.score = none ∧
    ((runAudit meta logic ctx arts).1.scoreDisplayMode =
        ScoreDisplayMode.notApplicable ∨
      (runAudit meta logic ctx arts).1.scoreDisplayMode =
        ScoreDisplayMode.error) := by
  have hm : requiredMissing meta arts = true := by
    obtain ⟨r, hr, hcase⟩ := hmiss
    unfold requiredMissing
    rw [List.any_eq_true]
    refine ⟨r, hr, ?_⟩
    rcases hcase with h | ⟨e, h⟩ <;> simp [artifactOk, h]
  refine ⟨?_, ?_, Or.inr ?_⟩ <;> simp [runAudit, hm, errorResult]

theorem c5_witness :
    (runAudit
      { id := "speed-index", title := "t", description := "d",
        requiredArtifacts := ["traces"] }
      (fun _ _ => Except.ok { score := some 1 }) ctx0 []).2 = false ∧
    (runAudit
      { id := "speed-index", title := "t", description := "d",
        requiredArtifacts := ["traces"] }
      (fun _ _ => Except.ok { score := some 1 }) ctx0 []).1.score = none :=
  ⟨(c5_missing_required_artifact_skips_logic
      { id := "speed-index", title := "t", description := "d",
        requiredArtifacts := ["traces"] }
      (fun _ _ => Except.ok { score := some 1 }) ctx0 []
      ⟨"traces", by decide, Or.inl rfl⟩).1,
   (c5_missing_required_artifact_skips_logic
      { id := "speed-index", title := "t", description := "d",
        requiredArtifacts := ["traces"] }
      (fun _ _ => Except.ok { score := some 1 }) ctx0 []
      ⟨"traces", by decide, Or.inl rfl⟩).2.1⟩

/-- Claim C6: a Product with notApplicable = true yields a final Result
whose scoreDisplayMode is not-applicable, overriding any mode declared by
the Product or the Meta. -/
theorem c6_not_applicable_overrides (meta : Meta) (logic : AuditLogic)
    (ctx : Context) (arts : ArtifactSet) (p : Product)
    (hmiss : requiredMissing meta arts = false)
    (hok : logic arts ctx = Except.ok p)
    (hpair : p.numericValue.isSome = p.numericUnit.isSome)
    (hna : p.notApplicable = some true) :
    (run meta logic ctx arts).scoreDisplayMode =
      ScoreDisplayMode.notApplicable := by
  simp [run, runAudit, hmiss, hok, hpair, finalizeMode, hna]

theorem c6_witness :
    (run (metaOf "na-audit" none)
      (fun _ _ => Except.ok
        { score := some 1, notApplicable := some true,
          scoreDisplayMode := some ScoreDisplayMode.binary })
      ctx0 []).scoreDisplayMode = ScoreDisplayMode.notApplicable :=
  c6_not_applicable_overrides (metaOf "na-audit" none)
    (fun _ _ => Except.ok
      { score := some 1, notApplicable := some true,
        scoreDisplayMode := some ScoreDisplayMode.binary })
    ctx0 []
    { score := some 1, notApplicable := some true,
      scoreDisplayMode := some ScoreDisplayMode.binary }
    rfl rfl rfl rfl

/-- Claim C9: a failure raised by audit logic is caught and converted into
an error Result carrying the error message and stack with score null, and
a run always completes with exactly one Result per attempted audit. -/
theorem c9_failures_isolated_one_result_each
    (audits : List (Meta × AuditLogic)) (ctx : Context) (arts : ArtifactSet) :
    (runAll audits ctx arts).length = audits.length ∧
    ∀ (meta : Meta) (logic : AuditLogic) (e : String),
      requiredMissing meta arts = false → logic arts ctx = Except.error e →
        (run meta logic ctx arts).score = none ∧
        (run meta logic ctx arts).errorMessage = some e ∧
        (run meta logic ctx arts).errorStack = some e ∧
        (run meta logic ctx arts).scoreDisplayMode = ScoreDisplayMode.error := by
  refine ⟨by simp [runAll], ?_⟩
  intro meta logic e hmiss herr
  refine ⟨?_, ?_, ?_, ?_⟩ <;> simp [run, runAudit, hmiss, herr, errorResult]

theorem c9_witness :
    (runAll [(metaOf "boom-audit" none,
        fun _ _ => Except.error "exploded")] ctx0 []).length = 1 ∧
    (run (metaOf "boom-audit" none) (fun _ _ => Except.error "exploded")
      ctx0 []).errorMessage = some "exploded" ∧
    (run (metaOf "boom-audit" none) (fun _ _ => Except.error "exploded")
      ctx0 []).score = none :=
  ⟨(c9_failures_isolated_one_result_each
      [(metaOf "boom-audit" none, fun _ _ => Except.error "exploded")]
      ctx0 []).1,
   ((c9_failures_isolated_one_result_each
      [(metaOf "boom-audit" none, fun _ _ => Except.error "exploded")]
      ctx0 []).2 (metaOf "boom-audit" none)
      (fun _ _ => Except.error "exploded") "exploded" rfl rfl).2.1,
   ((c9_failures_isolated_one_result_each
      [(metaOf "boom-audit" none, fun _ _ => Except.error "exploded")]
      ctx0 []).2 (metaOf "boom-audit" none)
      (fun _ _ => Except.error "exploded") "exploded" rfl rfl).1⟩

/-- Claim C10: a Product carrying a numeric value carries a unit tag drawn
from exactly the four source literals byte, millisecond, element and
unitless; a string is a valid unit tag precisely when it is one of the
four. -/
theorem c10_numeric_unit_exactly_four_tags :
    (∀ (p : Product) (u : NumericUnit), p.numericUnit = some u →
        u.toTag ∈ validNumericUnitTags) ∧
    ∀ s : String,
      (∃ u : NumericUnit, u.toTag = s) ↔ s ∈ validNumericUnitTags := by
  constructor
  · intro p u _
    cases u <;> simp [NumericUnit.toTag, validNumericUnitTags]
  · intro s
    constructor
    · rintro ⟨u, rfl⟩
      cases u <;> simp [NumericUnit.toTag, validNumericUnitTags]
    · intro hs
      simp only [validNumericUnitTags, List.mem_cons,
        List.not_mem_nil, or_false] at hs
      rcases hs with h | h | h | h
      · exact ⟨.byte, by rw [h]; rfl⟩
      · exact ⟨.millisecond, by rw [h]; rfl⟩
      · exact ⟨.element, by rw [h]; rfl⟩
      · exact ⟨.unitless, by rw [h]; rfl⟩

theorem c10_witness :
    NumericUnit.toTag NumericUnit.millisecond ∈ validNumericUnitTags :=
  c10_numeric_unit_exactly_four_tags.1
    { score := none, numericValue := some 38,
      numericUnit := some NumericUnit.millisecond }
    NumericUnit.millisecond rfl

/-- Claim C8 counterexample: with executed audits X (replacing Y), Y, and Z
(replacing X), the pair (X, Y) satisfies the claim's premises, yet X's
Result is not in the externally visible set — Z suppresses it — so the
claim as stated fails. -/
theorem c8_counterexample :
    (metaOf "Y" none).id ∈ (metaOf "X" (some ["Y"])).replacesAudits.getD [] ∧
    (metaOf "X" (some ["Y"]), resOf "X") ∈ chainEntries ∧
    (metaOf "Y" none, resOf "Y") ∈ chainEntries ∧
    resOf "X" ∉ visibleResults chainEntries := by
  decide

/-- Claim C8 (amended): if executed audit X lists executed audit Y among
its replacesAudits, the aggregator's externally visible Result set excludes
Y's Result; it contains X's Result provided no executed audit lists X
itself as replaced. -/
theorem c8_replaces_suppression (entries : List (Meta × RResult))
    (mX mY : Meta) (rX rY : RResult)
    (hXmem : (mX, rX) ∈ entries) (hYmem : (mY, rY) ∈ entries)
    (hrep : mY.id ∈ mX.replacesAudits.getD [])
    (hXfree : mX.id ∉ replacedIds entries)
    (hids : ∀ e ∈ entries, (Prod.snd e).auditId = (Prod.fst e).id) :
    rX ∈ visibleResults entries ∧
    ∀ r ∈ visibleResults entries, r.auditId ≠ mY.id := by
  constructor
  · refine List.mem_map.mpr ⟨(mX, rX), ?_, rfl⟩
    refine List.mem_filter.mpr ⟨hXmem, ?_⟩
    simpa using hXfree
  · intro r hr
    obtain ⟨e, he, rfl⟩ := List.mem_map.mp hr
    have hef := List.mem_filter.mp he
    have hnotrep : e.1.id ∉ replacedIds entries := by simpa using hef.2
    have hYrep : mY.id ∈ replacedIds entries := by
      unfold replacedIds
      rw [List.mem_flatten]
      exact ⟨mX.replacesAudits.getD [],
        List.mem_map.mpr ⟨(mX, rX), hXmem, rfl⟩, hrep⟩
    rw [hids e hef.1]
    intro heq
    exact hnotrep (heq ▸ hYrep)

theorem c8_witness :
    resOf "X" ∈ visibleResults
      [(metaOf "X" (some ["Y"]), resOf "X"), (metaOf "Y" none, resOf "Y")] ∧
    ∀ r ∈ visibleResults
      [(metaOf "X" (some ["Y"]), resOf "X"), (metaOf "Y" none, resOf "Y")],
      r.auditId ≠ (metaOf "Y" none).id :=
  c8_replaces_suppression
    [(metaOf "X" (some ["Y"]), resOf "X"), (metaOf "Y" none, resOf "Y")]
    (metaOf "X" (some ["Y"])) (metaOf "Y" none) (resOf "X") (resOf "Y")
    (by decide) (by decide) (by decide) (by decide) (by decide)

/-- Claim C7: for control points 0 < p10 < median, the Scoring Normalizer
always returns a score (never null) clamped to [0,1], monotonically
decreasing in the raw value, equal to 1/2 at the median, equal to 9/10 at
p10, and equal to 1 at raw value 0. -/
theorem c7_scoring_normalizer_properties (p10 median : ℝ)
    (h0 : 0 < p10) (hpm : p10 < median) :
    (∀ v, 0 ≤ logNormalScore p10 median v ∧ logNormalScore p10 median v ≤ 1) ∧
    (∀ v1 v2, v1 ≤ v2 →
      logNormalScore p10 median v2 ≤ logNormalScore p10 median v1) ∧
    logNormalScore p10 median median = 1 / 2 ∧
    logNormalScore p10 median p10 = 9 / 10 ∧
    logNormalScore p10 median 0 = 1 := by
  have hmed : (0:ℝ) < median := h0.trans hpm
  have hratio : 1 < median / p10 := (one_lt_div h0).mpr hpm
  have hlog : 0 < Real.log (median / p10) := Real.log_pos hratio
  have hlog9 : 0 < Real.log 9 := Real.log_pos (by norm_num)
  have hc : 0 < Real.log 9 / Real.log (median / p10) := div_pos hlog9 hlog
  refine ⟨?_, ?_, ?_, ?_, ?_⟩
  · intro v
    unfold logNormalScore
    split_ifs with hv
    · norm_num
    · exact ⟨le_min (by norm_num) (le_max_left 0 _), min_le_left 1 _⟩
  · intro v1 v2 h12
    unfold logNormalScore
    split_ifs with h2 h1 h1
    · exact le_refl 1
    · exact absurd (le_trans h12 h2) h1
    · exact min_le_left 1 _
    · have hv1 : 0 < v1 := not_le.mp h1
      refine min_le_min (le_refl 1) (max_le_max (le_refl 0) ?_)
      have hxy : (v1 / median) ^ (Real.log 9 / Real.log (median / p10)) ≤
          (v2 / median) ^ (Real.log 9 / Real.log (median / p10)) := by
        apply Real.rpow_le_rpow (by positivity) ?_ hc.le
        gcongr
      apply one_div_le_one_div_of_le
      · positivity
      · linarith
  · have hmm : median / median = 1 := div_self (ne_of_gt hmed)
    unfold logNormalScore
    rw [if_neg (not_le.mpr hmed), hmm, Real.one_rpow]
    norm_num
  · have hp : (0:ℝ) < p10 / median := div_pos h0 hmed
    have hlogdiv : Real.log (p10 / median) = -Real.log (median / p10) := by
      rw [Real.log_div (ne_of_gt h0) (ne_of_gt hmed),
        Real.log_div (ne_of_gt hmed) (ne_of_gt h0)]
      ring
    have hpow : (p10 / median) ^ (Real.log 9 / Real.log (median / p10)) =
        1 / 9 := by
      rw [Real.rpow_def_of_pos hp, hlogdiv]
      have hmul : -Real.log (median / p10) *
          (Real.log 9 / Real.log (median / p10)) = -Real.log 9 := by
        field_simp
        ring
      rw [hmul, Real.exp_neg, Real.exp_log (by norm_num : (0:ℝ) < 9)]
      norm_num
    unfold logNormalScore
    rw [if_neg (not_le.mpr h0), hpow]
    norm_num
  · unfold logNormalScore
    rw [if_pos (le_refl (0:ℝ))]

theorem c7_witness :
    (0:ℝ) < 2000 ∧ (2000:ℝ) < 4000 ∧
    logNormalScore 2000 4000 4000 = 1 / 2 ∧
    logNormalScore 2000 4000 2000 = 9 / 10 ∧
    logNormalScore 2000 4000 0 = 1 :=
  ⟨by norm_num, by norm_num,
   (c7_scoring_normalizer_properties 2000 4000 (by norm_num)
      (by norm_num)).2.2.1,
   (c7_scoring_normalizer_properties 2000 4000 (by norm_num)
      (by norm_num)).2.2.2.1,
   (c7_scoring_normalizer_properties 2000 4000 (by norm_num)
      (by norm_num)).2.2.2.2⟩
